import Mathlib

/-!
Verification of the reference-first retrieval core of the `openclaw`
repository.  Strings are modelled as `List Char` (one entry per code
point); numeric tool parameters are modelled as `Int` wherever the
JavaScript code can receive negative values, and clamping/slicing mirror
the JavaScript semantics (`Array.prototype.slice`, `String.prototype.slice`,
`String.prototype.trim`, ...).
-/

set_option maxRecDepth 8000

namespace OpenClaw

abbrev Text := List Char

/-- Character class of the JavaScript regexp `\s` restricted to the ASCII
whitespace the repository's data can contain (space, tab, LF, CR, VT, FF).
Used by `snippet.replace(/\s+/g, " ")`, `trim()` and `trimEnd()`. -/
def jsIsWs (c : Char) : Bool :=
  c = ' ' || c = '\t' || c = '\n' || c = '\r' || c = '\x0b' || c = '\x0c'

/-- `s.trim()` : drop whitespace from both ends. -/
def jsTrim (s : Text) : Text :=
  ((s.dropWhile jsIsWs).reverse.dropWhile jsIsWs).reverse

/-- `s.trimEnd()` : drop trailing whitespace. -/
def jsTrimEnd (s : Text) : Text :=
  (s.reverse.dropWhile jsIsWs).reverse

/-- `s.replace(/\s+/g, " ")` : collapse every maximal whitespace run into a
single space.  The `Bool` argument records whether the previous character
was part of a whitespace run. -/
def collapseWsAux : Bool → Text → Text
  | _, [] => []
  | prevWs, c :: rest =>
    if jsIsWs c then
      if prevWs then collapseWsAux true rest
      else ' ' :: collapseWsAux true rest
    else c :: collapseWsAux false rest

def collapseWs (s : Text) : Text := collapseWsAux false s

/-- Index clamping of `String.prototype.slice` / `Array.prototype.slice`:
negative indices count from the end, then the index is clamped to
`[0, len]`. -/
def jsSliceIndex (len : Nat) (i : Int) : Nat :=
  if i < 0 then ((len : Int) + i).toNat.min len
  else i.toNat.min len

/-- `l.slice(start, stop)` with full JavaScript index semantics. -/
def jsSlice {α : Type} (l : List α) (start stop : Int) : List α :=
  (l.take (jsSliceIndex l.length stop)).drop (jsSliceIndex l.length start)

/-- `Math.max(lo, Math.min(hi, Math.floor(n)))` from `clampInt` in
`rlm-expand-tool.ts` (the `Number.isFinite` guard cannot fire on `Int`). -/
def clampInt (n lo hi : Int) : Int := max lo (min hi n)

/-- `makePreview` from `memory-tool.refs.ts` (the identical helper also
appears in `rlm-search-tool.ts` and `rlm-context-search-tool.ts`):
whitespace-normalise the snippet, and if it exceeds `previewChars`
truncate and append a one-character ellipsis. -/
def makePreview (snippet : Text) (previewChars : Int) : Text :=
  let s := jsTrim (collapseWs snippet)
  if (s.length : Int) ≤ previewChars then s
  else jsTrimEnd (jsSlice s 0 previewChars) ++ ['…']

/-- Scores are IEEE doubles in the source; every score the claims touch is
a small decimal, so they are modelled exactly as rationals. -/
abbrev Score := ℚ

/-- `MemorySearchResult` from `memory-tool.refs.ts`. -/
structure MemorySearchResult where
  path : Text
  startLine : Int
  endLine : Int
  score : Score
  snippet : Text
  source : Option Text := none
deriving Repr, DecidableEq

/-- A reference as produced by the refs-returning search tools. -/
structure Ref where
  path : Text
  startLine : Int
  endLine : Int
  score : Score
  source : Option Text := none
  preview : Text
deriving Repr, DecidableEq

/-- `toRefs` from `memory-tool.refs.ts`: map every search result to a
`Ref`, deriving the preview from the snippet.  No result is dropped. -/
def toRefs (results : List MemorySearchResult) (previewChars : Int) : List Ref :=
  results.map fun r =>
    { path := r.path
      startLine := r.startLine
      endLine := r.endLine
      score := r.score
      source := r.source
      preview := makePreview r.snippet previewChars }

/-- The refs field of a `memory_search_refs` result (`createMemorySearchRefsTool`):
`toRefs` over the manager's search results; with no hook handler installed
`augmentedRefs` stays unset and the tool returns these refs unchanged. -/
def memorySearchRefs (results : List MemorySearchResult) (previewChars : Int) : List Ref :=
  toRefs results previewChars

/-- `looksBase64` from the local validation harness
(`scripts/test-memory-refs.ts`): a trimmed preview of at least 60
characters, containing no space, matching `/^[A-Za-z0-9+/=]+$/`. -/
def isBase64Char (c : Char) : Bool :=
  c.isAlphanum || c = '+' || c = '/' || c = '='

def looksBase64 (s : Text) : Bool :=
  let t := jsTrim s
  decide (t.length ≥ 60) && !t.contains ' ' && !t.isEmpty && t.all isBase64Char

/-- `safeRefs` from the harness: refs surviving the harness-side blob
filter (applied before choosing refs to expand, not inside the tool). -/
def safeRefs (refs : List Ref) : List Ref :=
  refs.filter fun r => !looksBase64 r.preview

/-! ## Expand Engine (`memory-tool.expand.ts`) -/

/-- An input ref of the `memory_expand` schema. -/
structure ExpandRefIn where
  path : Text
  startLine : Option Int := none
  endLine : Option Int := none
  fromLine : Option Int := none
  lines : Option Int := none
deriving Repr, DecidableEq

structure NormRef where
  path : Text
  fromLine : Int
  lines : Int
deriving Repr, DecidableEq

/-- `normalizeRef` from `memory-tool.expand.ts`:
`from = ref.from ?? ref.startLine ?? 1`;
`lines = ref.lines ?? (startLine != null && endLine != null ?
max(1, endLine - startLine + 1) : defaultLines)`. -/
def normalizeRef (ref : ExpandRefIn) (defaultLines : Int) : NormRef :=
  { path := ref.path
    fromLine := ref.fromLine.getD (ref.startLine.getD 1)
    lines := ref.lines.getD
      (match ref.startLine, ref.endLine with
        | some s, some e => max 1 (e - s + 1)
        | _, _ => defaultLines) }

/-- A workspace: maps a relative path to the file's list of lines. -/
abbrev FileStore := Text → Option (List Text)

def joinLF (ls : List Text) : Text := (ls.intersperse ['\n']).flatten

/-- `haystack.includes(pat)` : `pat` occurs contiguously in the list. -/
def hasInfix (pat : Text) : Text → Bool
  | [] => pat.isPrefixOf []
  | c :: rest => pat.isPrefixOf (c :: rest) || hasInfix pat rest

/-- Modelled from the spec: `manager.readFile` of the memory search
manager is not under `src/` (only its callers, the `memory_expand` and
`memory_get` tools, are).  Spec §4.3: read the file, split into lines,
clamp `lines ∈ [1, 400]` and `from ∈ [1, fileLineCount]`, slice
`[from − 1, from + lines − 1)`, join with LF; a missing path fails. -/
def readFileSpec (fs : FileStore) (p : Text) (fromLine lines : Int) :
    Except Text Text :=
  match fs p with
  | none => .error ("no such file: ".toList ++ p)
  | some fileLines =>
    let L := clampInt lines 1 400
    let F := clampInt fromLine 1 fileLines.length
    .ok (joinLF (jsSlice fileLines (F - 1) (F - 1 + L)))

/-- The literal truncation marker appended by `memory_expand`. -/
def TRUNC_MARKER : Text := "\n…TRUNCATED…".toList

/-- Per-ref cap from `memory-tool.expand.ts`:
`out.text.length > maxChars ? out.text.slice(0, maxChars) + "\n…TRUNCATED…" : out.text`. -/
def truncateToMax (maxChars : Int) (t : Text) : Text :=
  if (t.length : Int) > maxChars then jsSlice t 0 maxChars ++ TRUNC_MARKER else t

/-- An expanded window `{path, from, lines, text}`. -/
structure Window where
  path : Text
  fromLine : Int
  lines : Int
  text : Text
deriving Repr, DecidableEq

/-- The JSON result of a `memory_expand` call: the empty-refs guard result,
the whole-call failure result `{results: [], disabled: true, error}`
produced by the `catch`, or the success result with its budget echo. -/
inductive ExpandOutcome where
  | invalidRefs
  | disabled (error : Text)
  | ok (results : List Window) (maxRefs defaultLines maxChars : Int)
deriving Repr, DecidableEq

/-- The `for (const ref of limitedRefs)` loop of `memory_expand`: each ref
is normalised, read and truncated in input order; a read failure throws,
discarding every window built so far. -/
def expandBatch (fs : FileStore) (defaultLines maxChars : Int) :
    List ExpandRefIn → Except Text (List Window)
  | [] => .ok []
  | ref :: rest =>
    let nr := normalizeRef ref defaultLines
    match readFileSpec fs nr.path nr.fromLine nr.lines with
    | .error e => .error e
    | .ok text =>
      match expandBatch fs defaultLines maxChars rest with
      | .error e => .error e
      | .ok ws =>
        .ok ({ path := nr.path, fromLine := nr.fromLine, lines := nr.lines,
               text := truncateToMax maxChars text } :: ws)

/-- `createMemoryExpandTool.execute`: reject an empty refs array, keep
`refs.slice(0, maxRefs)`, expand them, and on any thrown read error return
the batch-level `{results: [], disabled: true, error}` result. -/
def memoryExpand (fs : FileStore) (refs : List ExpandRefIn)
    (defaultLines maxRefs maxChars : Int) : ExpandOutcome :=
  if refs.isEmpty then .invalidRefs
  else
    match expandBatch fs defaultLines maxChars (jsSlice refs 0 maxRefs) with
    | .error e => .disabled e
    | .ok ws => .ok ws maxRefs defaultLines maxChars

/-! ## RLM session tools (`rlm-expand-tool.ts`) -/

/-- `resolveSessionFileAbs`: strip the leading run of `.` and `/`
characters, match `^sessions\/(.+)$` (the dot of the regexp matches
neither LF nor CR), require the `.jsonl` suffix, and reject path
separators and `..` inside the filename.  On success the bare filename is
joined under the agent's sessions directory. -/
def resolveSessionFile (relPath : Text) : Except Text Text :=
  let rel := relPath.dropWhile fun c => c = '.' || c = '/'
  let pre := "sessions/".toList
  let file := rel.drop pre.length
  if !(pre.isPrefixOf rel) || file.isEmpty
      || file.any (fun c => c = '\n' || c = '\r') then
    .error "path must start with sessions/".toList
  else if !(".jsonl".toList.isSuffixOf file) then
    .error "session path must end with .jsonl".toList
  else if hasInfix "..".toList file || file.contains '/'
      || file.contains '\\' then
    .error "invalid session filename".toList
  else
    .ok file

/-- `readLines` from `rlm-expand-tool.ts`: clamp `from` to
`[1, lineCount]`, the end to `[start, lineCount]`, slice and join with
LF.  The file is modelled post-split (on `\r?\n`). -/
def readLines (allLines : List Text) (fromLine lines : Int) : Text :=
  let s := clampInt fromLine 1 allLines.length
  let e := clampInt (s + lines - 1) s allLines.length
  joinLF (jsSlice allLines (s - 1) e)

/-- `rlm_get` (`createRlmGetTool.execute`): resolve the session path, then
read `clampInt(lines, 1, 400)` lines; any failure becomes an error result
with empty text.  The store maps bare session filenames to lines. -/
def rlmGet (store : FileStore) (relPath : Text) (fromLine lines : Int) :
    Except Text Text :=
  match resolveSessionFile relPath with
  | .error e => .error e
  | .ok file =>
    match store file with
    | none => .error ("no such file: ".toList ++ file)
    | some ls => .ok (readLines ls fromLine (clampInt lines 1 400))

/-- An input ref of the `rlm_expand` schema. -/
structure RlmExpandRefIn where
  path : Text
  startLine : Option Int := none
  endLine : Option Int := none
deriving Repr, DecidableEq

/-- The per-ref body of `createRlmExpandTool.execute`: window centred on
the matched line, read from the session store; `none` models the caught
resolve/read failure. -/
def rlmReadRef (store : FileStore) (defaultLines : Int) (ref : RlmExpandRefIn) :
    Option (Int × Int × Text) :=
  let center := clampInt (ref.startLine.getD (ref.endLine.getD 1)) 1 10000000
  let lines := clampInt defaultLines 1 400
  let fromL := max 1 (center - lines / 2)
  match resolveSessionFile ref.path with
  | .error _ => none
  | .ok file =>
    match store file with
    | none => none
    | some ls => some (fromL, lines, readLines ls fromL lines)

/-- The ref loop of `rlm_expand`: refs in input order; falsy paths and
failed reads are skipped without consuming budget; each window is clipped
to the remaining budget; once the budget reaches zero the loop breaks. -/
def rlmExpandLoop (store : FileStore) (defaultLines : Int) :
    Int → List RlmExpandRefIn → List Window
  | _, [] => []
  | remaining, ref :: rest =>
    if ref.path.isEmpty then rlmExpandLoop store defaultLines remaining rest
    else
      match rlmReadRef store defaultLines ref with
      | none => rlmExpandLoop store defaultLines remaining rest
      | some (fromL, lines, text) =>
        let clipped := jsSlice text 0 (max 0 remaining)
        let w : Window :=
          { path := ref.path, fromLine := fromL, lines := lines, text := clipped }
        let remaining' := remaining - (clipped.length : Int)
        if remaining' ≤ 0 then [w]
        else w :: rlmExpandLoop store defaultLines remaining' rest

/-- `createRlmExpandTool.execute`: slice the refs to
`clampInt(maxRefs, 1, 20)` and run the budgeted loop with
`remaining = maxChars`. -/
def rlmExpand (store : FileStore) (refs : List RlmExpandRefIn)
    (defaultLines maxRefs maxChars : Int) : List Window :=
  rlmExpandLoop store defaultLines maxChars (jsSlice refs 0 (clampInt maxRefs 1 20))

/-! ## RLM refs-returning search (`rlm-context-search-tool.ts`) -/

/-- One block parsed from the temporal-search stdout
(`parseTemporalSearchOutput`). -/
structure RlmResult where
  date : Text
  isAssistant : Bool
  snippet : Text
  score : Option Score := none
deriving Repr, DecidableEq

/-- The `🔍 ` prefix (two code points) prepended to every RLM preview. -/
def MAGNIFIER : Text := "🔍 ".toList

/-- One ref built by `createRlmSearchRefsTool` in
`rlm-context-search-tool.ts`: path `memory/transcripts/<date>.md`,
hard-coded `startLine: 0, endLine: 0`, positional default score
`0.55 - idx * 0.001`, and the magnifier-prefixed preview. -/
def rlmRefFromResult (previewLimit : Int) (idx : Nat) (r : RlmResult) : Ref :=
  { path := "memory/transcripts/".toList ++ r.date ++ ".md".toList
    startLine := 0
    endLine := 0
    score := r.score.getD ((11 : Score) / 20 - (idx : Score) / 1000)
    source := some "sessions".toList
    preview := MAGNIFIER ++ makePreview r.snippet previewLimit }

def rlmRefsAux (previewLimit : Int) : Nat → List RlmResult → List Ref
  | _, [] => []
  | idx, r :: rest => rlmRefFromResult previewLimit idx r :: rlmRefsAux previewLimit (idx + 1) rest

/-- The refs field of an `rlm_search_refs` result: resolve the result and
preview limits (positive caller values win over the defaults 10 and 200),
slice, and map with the running index. -/
def rlmSearchRefs (parsed : List RlmResult)
    (maxResults previewChars : Option Int) (defaultMax : Int := 10) : List Ref :=
  let limit : Int := match maxResults with
    | some m => if m > 0 then m else defaultMax
    | none => defaultMax
  let previewLimit : Int := match previewChars with
    | some p => if p > 0 then p else 200
    | none => 200
  rlmRefsAux previewLimit 0 (jsSlice parsed 0 limit)

/-! ## Index-refresh hook (`src/hooks/bundled/rlm-index-refresh/handler.ts`) -/

def DEBOUNCE_MS : Nat := 60000
def COOLDOWN_MS : Nat := 5 * 60000

abbrev AgentId := Text

def lookupA (k : AgentId) : List (AgentId × Nat) → Option Nat
  | [] => none
  | (k', v) :: rest => if k' = k then some v else lookupA k rest

def insertA (k : AgentId) (v : Nat) : List (AgentId × Nat) → List (AgentId × Nat)
  | [] => [(k, v)]
  | (k', v') :: rest => if k' = k then (k, v) :: rest else (k', v') :: insertA k v rest

/-- One attempt of the regexp `agents\/([^/]+)\/sessions\/[^/]+\.jsonl$`
anchored at the head of `l`: the agent id is the (nonempty) run up to the
first `/`, and the trailing filename is nonempty, `/`-free and ends in
`.jsonl`. -/
def matchAgentsAt (l : Text) : Option AgentId :=
  let pre := "agents/".toList
  if pre.isPrefixOf l then
    let rest := l.drop pre.length
    let aid := rest.takeWhile (· ≠ '/')
    if aid.isEmpty then none
    else
      let rest2 := rest.drop aid.length
      let mid := "/sessions/".toList
      if mid.isPrefixOf rest2 then
        let f := rest2.drop mid.length
        if !f.contains '/' && ".jsonl".toList.isSuffixOf f
            && decide (6 < f.length) then
          some aid
        else none
      else none
  else none

/-- `extractAgentId` from the bundled hook: leftmost match of the regexp
above, `none` when the session file path does not match. -/
def extractAgentId : Text → Option AgentId
  | [] => none
  | c :: rest =>
    match matchAgentsAt (c :: rest) with
    | some aid => some aid
    | none => extractAgentId rest

/-- The mutable maps of the bundled hook: `pending` holds the scheduled
fire time of the per-agent debounce timer, `lastRun` the completion time
of the last successful refresh. -/
structure HookState where
  pending : List (AgentId × Nat)
  lastRun : List (AgentId × Nat)
deriving Repr, DecidableEq

/-- `refreshOnTranscriptUpdate` on one `session:transcript:update` event at
time `now`: extract the agent id (default `main`); if the cooldown since
the last successful run has not elapsed, return without touching any
timer; otherwise clear any pending timer for that agent and schedule a
refresh at `now + DEBOUNCE_MS`. -/
def hookStep (st : HookState) (sessionFile : Text) (now : Nat) : HookState :=
  let aid := (extractAgentId sessionFile).getD "main".toList
  let last := (lookupA aid st.lastRun).getD 0
  if now - last < COOLDOWN_MS then st
  else { st with pending := insertA aid (now + DEBOUNCE_MS) st.pending }

end OpenClaw

namespace OpenClaw.Recursive

open OpenClaw

/-! ## Recursive refs-first loop

Modelled from the spec: the recursive mode of `memory_search_refs`
(spec §4.1) is not under `src/` — the snapshot's
`createMemorySearchRefsTool` has no `recursive` parameter, while its
caller `scripts/test-memory-refs-report.ts` passes `recursive` configs
and reads the per-hop metadata.  The loop below follows §4.1, with the
single-search step, the per-ref expansion of one hop, and the
query-derivation heuristic abstracted as function parameters (the spec
treats the searcher as external, and the claims constrain only the
outputs of the derivation). -/

/-- A ref as accumulated by the recursive loop (spec §3 `Ref` with
`hop`). -/
structure RRef where
  path : Text
  startLine : Int
  endLine : Int
  score : Score
  preview : Text
  hop : Option Nat := none
deriving Repr, DecidableEq

/-- Recursive config (spec §3): finite non-negative integers and
booleans. -/
structure RecursiveCfg where
  maxHops : Nat
  maxRefsPerHop : Nat
  expandTopK : Nat
  defaultLines : Nat
  maxCharsPerRef : Nat
  maxTotalExpandedChars : Nat
  derivedQueryMaxTerms : Nat
  earlyStop : Bool
deriving Repr, DecidableEq

/-- Per-hop metadata `{hop, query, derivedQuery?, newRefs}` (spec §4.1
step 3). -/
structure HopInfo where
  hop : Nat
  query : Text
  derivedQuery : Option Text
  newRefs : Nat
deriving Repr, DecidableEq, Inhabited

structure RecursiveMeta where
  budget : RecursiveCfg
  hops : List HopInfo
  totalExpandedChars : Nat
deriving Repr, DecidableEq

structure SearchRefsOut where
  query : Text
  refs : List RRef
  recursive : RecursiveMeta
deriving Repr, DecidableEq

def refKey (r : RRef) : Text × Int × Int := (r.path, r.startLine, r.endLine)

/-- Merge one ref of hop `hop` into the accumulator keyed by
`(path, startLine, endLine)`: first-writer-wins on `hop`, max `score`
(spec §4.1 step 2).  Also reports whether the ref was new. -/
def mergeOne (hop : Nat) (r : RRef) : List RRef → List RRef × Bool
  | [] => ([{ r with hop := some hop }], true)
  | a :: rest =>
    if refKey a = refKey r then
      ({ a with score := max a.score r.score } :: rest, false)
    else
      let m := mergeOne hop r rest
      (a :: m.1, m.2)

/-- Merge a hop's refs in order, counting how many were new. -/
def mergeHop (hop : Nat) (refs : List RRef) (acc : List RRef) : List RRef × Nat :=
  match refs with
  | [] => (acc, 0)
  | r :: rest =>
    let m1 := mergeOne hop r acc
    let m2 := mergeHop hop rest m1.1
    (m2.1, (if m1.2 then 1 else 0) + m2.2)

def sortByScoreDesc (refs : List RRef) : List RRef :=
  refs.mergeSort fun a b => b.score ≤ a.score

def topKByScore (k : Nat) (refs : List RRef) : List RRef :=
  (sortByScoreDesc refs).take k

/-- Expand one hop's chosen refs in order under the global
`maxTotalExpandedChars` cap (spec §4.1 step 2 with §4.3 Budget): a ref
whose remaining budget is smaller than its text is truncated to it, and
once the budget is exhausted the remaining refs are skipped.  Returns the
concatenated expanded text and the new running total. -/
def expandHop (expandText : RRef → Text) (maxTotal : Nat) :
    Nat → List RRef → Text × Nat
  | total, [] => ([], total)
  | total, r :: rest =>
    if maxTotal ≤ total then ([], total)
    else
      let t := (expandText r).take (maxTotal - total)
      let rest' := expandHop expandText maxTotal (total + t.length) rest
      (t ++ rest'.1, rest'.2)

def joinSpace (ts : List Text) : Text := (ts.intersperse [' ']).flatten

/-- The expanded text of hop 0: top `expandTopK` of the (up to
`maxRefsPerHop`) hop-0 refs, expanded under a fresh global budget. -/
def hop0ExpandedText (search : Text → List RRef) (expandText : RRef → Text)
    (cfg : RecursiveCfg) (query : Text) : Text :=
  (expandHop expandText cfg.maxTotalExpandedChars 0
    (topKByScore cfg.expandTopK ((search query).take cfg.maxRefsPerHop))).1

/-- The bounded fixed-point of spec §4.1 step 2, one iteration per hop
`h < maxHops`: search, merge, expand, derive, record
`{hop, query, derivedQuery?, newRefs}`, then stop on `earlyStop` with no
new refs, stop on an empty derivation, or continue with
`query ⊕ " " ⊕ Δ`. -/
def recLoop (search : Text → List RRef) (expandText : RRef → Text)
    (derive : Text → List Text) (cfg : RecursiveCfg) (origQuery : Text) :
    Nat → Nat → Text → List RRef → Nat → List HopInfo →
    List RRef × Nat × List HopInfo
  | _, 0, _, acc, total, hops => (acc, total, hops)
  | hop, rem + 1, q, acc, total, hops =>
    let found := (search q).take cfg.maxRefsPerHop
    let merged := mergeHop hop found acc
    let expanded :=
      expandHop expandText cfg.maxTotalExpandedChars total
        (topKByScore cfg.expandTopK found)
    let derived := (derive expanded.1).take cfg.derivedQueryMaxTerms
    let dq : Option Text := if derived.isEmpty then none else some (joinSpace derived)
    let hops' := hops ++ [⟨hop, q, dq, merged.2⟩]
    if cfg.earlyStop && merged.2 = 0 then (merged.1, expanded.2, hops')
    else if derived.isEmpty then (merged.1, expanded.2, hops')
    else
      recLoop search expandText derive cfg origQuery (hop + 1) rem
        (origQuery ++ ' ' :: joinSpace derived) merged.1 expanded.2 hops'

/-- `searchRefs` in recursive mode (spec §4.1): run the loop from hop 0
with the original query, then return the accumulated refs sorted by score
descending together with the `recursive` metadata. -/
def recursiveSearchRefs (search : Text → List RRef) (expandText : RRef → Text)
    (derive : Text → List Text) (cfg : RecursiveCfg) (query : Text) :
    SearchRefsOut :=
  let out := recLoop search expandText derive cfg query 0 cfg.maxHops query [] 0 []
  { query := query
    refs := sortByScoreDesc out.1
    recursive := ⟨cfg, out.2.2, out.2.1⟩ }

end OpenClaw.Recursive

namespace OpenClaw

/-! ## Helper lemmas -/

theorem length_dropWhile_le {α : Type} (p : α → Bool) (l : List α) :
    (l.dropWhile p).length ≤ l.length := by
  induction l with
  | nil => simp [List.dropWhile]
  | cons a l ih =>
    by_cases h : p a
    · simpa [List.dropWhile, h] using Nat.le_succ_of_le ih
    · simp [List.dropWhile, h]

theorem jsTrimEnd_length_le (s : Text) : (jsTrimEnd s).length ≤ s.length := by
  have := length_dropWhile_le jsIsWs s.reverse
  simpa [jsTrimEnd] using this

theorem jsSliceIndex_zero (len : Nat) : jsSliceIndex len 0 = 0 := by
  simp [jsSliceIndex]

theorem jsSlice_zero_nonneg {α : Type} (l : List α) (stop : Int) (h : 0 ≤ stop) :
    jsSlice l 0 stop = l.take stop.toNat := by
  have hneg : ¬ stop < 0 := not_lt.mpr h
  simp only [jsSlice, jsSliceIndex, hneg, if_false]
  norm_num

theorem jsSlice_zero_length_le {α : Type} (l : List α) (stop : Int) (h : 0 ≤ stop) :
    (jsSlice l 0 stop).length ≤ stop.toNat := by
  rw [jsSlice_zero_nonneg l stop h]
  simp [List.length_take]

/-- The preview built by `makePreview` never exceeds `previewChars + 1`
characters: truncation cuts at `previewChars` and then appends the
one-character ellipsis. -/
theorem makePreview_length_le (snippet : Text) (pc : Int) (h : 0 ≤ pc) :
    (makePreview snippet pc).length ≤ pc.toNat + 1 := by
  unfold makePreview
  set s := jsTrim (collapseWs snippet) with hs
  by_cases hle : (s.length : Int) ≤ pc
  · simp only [hle, if_true]
    have : s.length ≤ pc.toNat := by omega
    exact Nat.le_succ_of_le this
  · simp only [hle, if_false, List.length_append, List.length_singleton]
    have h1 : (jsTrimEnd (jsSlice s 0 pc)).length ≤ (jsSlice s 0 pc).length :=
      jsTrimEnd_length_le _
    have h2 : (jsSlice s 0 pc).length ≤ pc.toNat := jsSlice_zero_length_le s pc h
    omega

/-- Every ref built by `rlmRefsAux` has the hard-coded zero line range and
a magnifier-prefixed preview derived from one of the parsed results. -/
theorem rlmRefsAux_mem (pl : Int) :
    ∀ (idx : Nat) (parsed : List RlmResult) (r : Ref), r ∈ rlmRefsAux pl idx parsed →
      r.startLine = 0 ∧ r.endLine = 0 ∧
      ∃ res ∈ parsed, r.preview = MAGNIFIER ++ makePreview res.snippet pl := by
  intro idx parsed
  induction parsed generalizing idx with
  | nil => intro r hr; simp [rlmRefsAux] at hr
  | cons a rest ih =>
    intro r hr
    simp only [rlmRefsAux, List.mem_cons] at hr
    rcases hr with rfl | hr
    · exact ⟨rfl, rfl, a, by simp, rfl⟩
    · obtain ⟨h1, h2, res, hres, hp⟩ := ih (idx + 1) r hr
      exact ⟨h1, h2, res, List.mem_cons_of_mem _ hres, hp⟩

/-- Every member of a `jsSlice` is a member of the original list. -/
theorem mem_of_mem_jsSlice {α : Type} {x : α} {l : List α} {a b : Int}
    (h : x ∈ jsSlice l a b) : x ∈ l := by
  unfold jsSlice at h
  exact List.mem_of_mem_take (List.mem_of_mem_drop h)

/-! ## C2 — binary-blob safety filter -/

/-- The search result of the `memory/qr.md` scenario: its single matching
line is 200 characters drawn from the base64 alphabet. -/
def qrResult : MemorySearchResult :=
  { path := "memory/qr.md".toList, startLine := 1, endLine := 1, score := 1,
    snippet := List.replicate 200 'A' }

/-- C2 counterexample: `searchRefs` applies no binary-blob filter before
returning — in the `memory/qr.md` scenario (single matching line of 200
base64 characters, `previewChars = 140`) the returned refs DO contain a
ref with path `memory/qr.md`, contradicting the claim. -/
theorem C2_counterexample :
    (memorySearchRefs [qrResult] 140).map Ref.path = ["memory/qr.md".toList] := by
  rfl

/-- C2 (amended): `searchRefs` applies no binary-blob filter: every search
result is mapped to exactly one ref with its path preserved.  The only
blob filter in the repository is the validation harness's `looksBase64`
(trimmed preview of ≥ 60 characters, no space, wholly `[A-Za-z0-9+/=]`),
applied when the harness picks refs to expand — and in the qr.md scenario
even that filter keeps the ref, because the truncated preview ends in the
appended ellipsis, which is outside the base64 alphabet. -/
theorem C2_no_blob_filter :
    (∀ (results : List MemorySearchResult) (pc : Int),
        (memorySearchRefs results pc).map Ref.path =
          results.map MemorySearchResult.path) ∧
    (safeRefs (memorySearchRefs [qrResult] 140)).map Ref.path =
      ["memory/qr.md".toList] := by
  constructor
  · intro results pc
    simp [memorySearchRefs, toRefs, List.map_map, Function.comp]
  · rfl

/-! ## C3 — Ref invariants of the refs-returning search operations -/

/-- A parsed temporal-search result used as a concrete input. -/
def rlmHello : RlmResult :=
  { date := "2024-01-01".toList, isAssistant := false, snippet := "hello".toList }

/-- C3 counterexample: `rlm_search_refs`
(`createRlmSearchRefsTool` in `rlm-context-search-tool.ts`) hard-codes
`startLine: 0, endLine: 0` on every ref, so the claimed invariant
`1 ≤ startLine` fails on any nonempty result list. -/
theorem C3_counterexample :
    (rlmSearchRefs [rlmHello] none (some 140)).map
        (fun r => (r.startLine, r.endLine)) = [((0 : Int), (0 : Int))] ∧
    ¬ (1 ≤ (0 : Int)) := by
  exact ⟨rfl, by norm_num⟩

/-- C3 (amended): `memory_search_refs` copies `startLine`/`endLine`
unchanged from the underlying search results (so the range invariant
holds there exactly when the searcher provides it), and previews exceed
`previewChars` by at most the appended one-character ellipsis;
`rlm_search_refs` hard-codes `startLine = endLine = 0` and prepends the
two-character `🔍 ` prefix, bounding its previews by `previewChars + 3`. -/
theorem C3_ref_invariants :
    (∀ (results : List MemorySearchResult) (pc : Int),
        (toRefs results pc).map (fun r => (r.startLine, r.endLine)) =
          results.map (fun r => (r.startLine, r.endLine))) ∧
    (∀ (snippet : Text) (pc : Int), 0 ≤ pc →
        (makePreview snippet pc).length ≤ pc.toNat + 1) ∧
    (∀ (parsed : List RlmResult) (mr : Option Int) (p : Int), 0 < p →
        ∀ r ∈ rlmSearchRefs parsed mr (some p),
          r.startLine = 0 ∧ r.endLine = 0 ∧ r.preview.length ≤ p.toNat + 3) := by
  refine ⟨?_, ?_, ?_⟩
  · intro results pc
    simp [toRefs, List.map_map, Function.comp]
  · exact makePreview_length_le
  · intro parsed mr p hp r hr
    have hpl : (if p > 0 then p else 200) = p := if_pos hp
    simp only [rlmSearchRefs, hpl] at hr
    obtain ⟨h1, h2, res, _, hprev⟩ := rlmRefsAux_mem p _ _ r hr
    refine ⟨h1, h2, ?_⟩
    rw [hprev, List.length_append]
    have : (MAGNIFIER).length = 2 := rfl
    rw [this]
    have := makePreview_length_le res.snippet p (le_of_lt hp)
    omega

/-- Witness for the amended C3 theorem at a concrete input. -/
theorem C3_ref_invariants_witness :
    (rlmRefFromResult 5 0 rlmHello).startLine = 0 ∧
    (rlmRefFromResult 5 0 rlmHello).endLine = 0 ∧
    (rlmRefFromResult 5 0 rlmHello).preview.length ≤ (5 : Int).toNat + 3 :=
  C3_ref_invariants.2.2 [rlmHello] none 5 (by norm_num)
    (rlmRefFromResult 5 0 rlmHello)
    (by
      rw [show rlmSearchRefs [rlmHello] none (some 5) =
            [rlmRefFromResult 5 0 rlmHello] from rfl]
      exact List.mem_singleton_self _)

/-! ## C4/C5/C6/C8 — the `memory_expand` batch -/

/-- Workspace of the §8 truncation scenario: `notes.md` with 10 lines of
2000 characters each. -/
def notesFs : FileStore := fun p =>
  if p = "notes.md".toList then some (List.replicate 10 (List.replicate 2000 'a'))
  else none

def notesRef : ExpandRefIn := { path := "notes.md".toList, startLine := some 1, endLine := some 3 }

/-- The §8 scenario call:
`memory_expand({refs:[{path:"notes.md",startLine:1,endLine:3}], defaultLines:3, maxRefs:1, maxChars:1500})`. -/
def c5scenario : ExpandOutcome := memoryExpand notesFs [notesRef] 3 1 1500

def notesLine : Text := List.replicate 2000 'a'

/-- The raw read text of the scenario: lines 1–3 joined with LF. -/
def notesText : Text := notesLine ++ '\n' :: notesLine ++ '\n' :: notesLine

theorem notesText_length : notesText.length = 6002 := by
  rw [notesText, List.length_append, List.length_cons, List.length_append,
    List.length_cons, notesLine, List.length_replicate]

/-- Unfolding `readFileSpec` when the file exists. -/
theorem readFileSpec_found (fs : FileStore) (p : Text) (ls : List Text)
    (hf : fs p = some ls) (fromLine lines : Int) :
    readFileSpec fs p fromLine lines =
      .ok (joinLF (jsSlice ls (clampInt fromLine 1 ls.length - 1)
        (clampInt fromLine 1 ls.length - 1 + clampInt lines 1 400))) := by
  unfold readFileSpec
  rw [hf]

theorem joinLF_three (a b c : Text) :
    joinLF [a, b, c] = a ++ '\n' :: b ++ '\n' :: c := by
  simp [joinLF, List.intersperse]

theorem notesRead :
    readFileSpec notesFs "notes.md".toList 1 3 = .ok notesText := by
  have hfs : notesFs "notes.md".toList = some (List.replicate 10 notesLine) := by
    unfold notesFs
    rw [if_pos rfl]
    rfl
  rw [readFileSpec_found notesFs _ _ hfs 1 3]
  rw [List.length_replicate]
  have h1 : clampInt 3 1 400 = 3 := by norm_num [clampInt]
  have h2 : clampInt 1 1 ((10 : Nat) : Int) = 1 := by norm_num [clampInt]
  rw [h1, h2]
  norm_num
  rw [jsSlice_zero_nonneg _ 3 (by norm_num)]
  norm_num
  rw [show (3 : Int).toNat = 3 from rfl,
    show List.replicate 3 notesLine = [notesLine, notesLine, notesLine] from rfl,
    joinLF_three, notesText]

/-- Evaluation of the §8 scenario: one window whose text is the first 1500
characters of the read text with the marker appended. -/
theorem c5scenario_eval :
    c5scenario =
      .ok [⟨"notes.md".toList, 1, 3, notesText.take 1500 ++ TRUNC_MARKER⟩] 1 3 1500 := by
  unfold c5scenario memoryExpand
  rw [if_neg (by simp)]
  rw [show jsSlice [notesRef] 0 (1 : Int) = [notesRef] from rfl]
  show (match expandBatch notesFs 3 1500 [notesRef] with
    | .error e => ExpandOutcome.disabled e
    | .ok ws => .ok ws 1 3 1500) = _
  have hnorm : normalizeRef notesRef 3 = ⟨"notes.md".toList, 1, 3⟩ := rfl
  have htrunc : truncateToMax 1500 notesText = notesText.take 1500 ++ TRUNC_MARKER := by
    unfold truncateToMax
    rw [if_pos (by rw [notesText_length]; norm_num),
      jsSlice_zero_nonneg _ 1500 (by norm_num)]
    rw [show (1500 : Int).toNat = 1500 from rfl]
  simp only [expandBatch, hnorm, notesRead, htrunc]

/-- A workspace with a single one-line file `a.md`. -/
def abFs : FileStore := fun p => if p = "a.md".toList then some [['x']] else none

def refA : ExpandRefIn := { path := "a.md".toList }

def refMissing : ExpandRefIn := { path := "missing.md".toList }

/-- If the pre-slice of the limited refs all read successfully and the next
ref fails with `e`, the whole batch fails with `e`. -/
theorem expandBatch_append_error (fs : FileStore) (dl mc : Int) (e : Text) :
    ∀ (pre : List ExpandRefIn) (r : ExpandRefIn) (post : List ExpandRefIn),
      (∀ p ∈ pre, ∃ t, readFileSpec fs (normalizeRef p dl).path
          (normalizeRef p dl).fromLine (normalizeRef p dl).lines = .ok t) →
      readFileSpec fs (normalizeRef r dl).path
          (normalizeRef r dl).fromLine (normalizeRef r dl).lines = .error e →
      expandBatch fs dl mc (pre ++ r :: post) = .error e := by
  intro pre
  induction pre with
  | nil =>
    intro r post _ hfail
    simp only [List.nil_append, expandBatch, hfail]
  | cons p pre' ih =>
    intro r post hpre hfail
    obtain ⟨t, ht⟩ := hpre p (List.mem_cons_self _ _)
    have hrest := ih r post (fun q hq => hpre q (List.mem_cons_of_mem _ hq)) hfail
    simp only [List.cons_append, expandBatch, ht, List.append_eq, hrest]

/-- C4 counterexample: in a `memory_expand` batch where `a.md` exists and
`missing.md` does not, the whole call returns the batch-level
`{results: [], disabled: true, error}` result — the sibling ref gets no
window — although the same sibling alone returns its window. -/
theorem C4_counterexample :
    memoryExpand abFs [refA, refMissing] 3 5 100 =
      .disabled ("no such file: ".toList ++ "missing.md".toList) ∧
    memoryExpand abFs [refA] 3 5 100 =
      .ok [⟨"a.md".toList, 1, 3, ['x']⟩] 5 3 100 :=
  ⟨rfl, rfl⟩

/-- C4 (amended): in a `memory_expand` batch call, a failure reading any
ref aborts the entire call — the tool returns
`{results: [], disabled: true, error}` carrying the first failing ref's
error, and no sibling ref returns a window. -/
theorem C4_batch_abort (fs : FileStore) (refs : List ExpandRefIn)
    (dl mr mc : Int) (hne : refs ≠ [])
    (pre : List ExpandRefIn) (r : ExpandRefIn) (post : List ExpandRefIn) (e : Text)
    (hsplit : jsSlice refs 0 mr = pre ++ r :: post)
    (hpre : ∀ p ∈ pre, ∃ t, readFileSpec fs (normalizeRef p dl).path
        (normalizeRef p dl).fromLine (normalizeRef p dl).lines = .ok t)
    (hfail : readFileSpec fs (normalizeRef r dl).path
        (normalizeRef r dl).fromLine (normalizeRef r dl).lines = .error e) :
    memoryExpand fs refs dl mr mc = .disabled e := by
  unfold memoryExpand
  rw [if_neg (by simpa [List.isEmpty_iff] using hne), hsplit,
    expandBatch_append_error fs dl mc e pre r post hpre hfail]

/-- Witness for the amended C4 theorem at the concrete two-ref input. -/
theorem C4_batch_abort_witness :
    memoryExpand abFs [refA, refMissing] 3 5 100 =
      .disabled ("no such file: ".toList ++ "missing.md".toList) :=
  C4_batch_abort abFs [refA, refMissing] 3 5 100 (by simp)
    [refA] refMissing [] ("no such file: ".toList ++ "missing.md".toList)
    rfl (by intro p hp; simp only [List.mem_singleton] at hp; exact ⟨['x'], by rw [hp]; rfl⟩) rfl

/-- C5: when a single ref's read text exceeds `maxChars`, the returned
text is the first `maxChars` characters followed by the literal marker
`\n…TRUNCATED…`; in the §8 scenario (10 lines of 2000 chars,
`startLine:1, endLine:3, defaultLines:3, maxRefs:1, maxChars:1500`) the
single window's text has length `1500 + len(marker)` and ends with the
marker. -/
theorem C5_truncation_marker :
    (∀ (mc : Int) (t : Text), 0 ≤ mc → mc < (t.length : Int) →
        truncateToMax mc t = t.take mc.toNat ++ TRUNC_MARKER ∧
        (truncateToMax mc t).length = mc.toNat + TRUNC_MARKER.length) ∧
    (∃ w : Window, c5scenario = .ok [w] 1 3 1500 ∧
      w.text.length = 1500 + TRUNC_MARKER.length ∧ TRUNC_MARKER <:+ w.text) := by
  constructor
  · intro mc t h0 hlt
    have htrunc : truncateToMax mc t = t.take mc.toNat ++ TRUNC_MARKER := by
      unfold truncateToMax
      rw [if_pos (by omega), jsSlice_zero_nonneg t mc h0]
    refine ⟨htrunc, ?_⟩
    rw [htrunc, List.length_append, List.length_take]
    have : mc.toNat ≤ t.length := by omega
    omega
  · refine ⟨⟨"notes.md".toList, 1, 3, notesText.take 1500 ++ TRUNC_MARKER⟩,
      c5scenario_eval, ?_, ⟨notesText.take 1500, rfl⟩⟩
    simp only [List.length_append, List.length_take, notesText_length]
    norm_num

/-- Witness for the universal part of C5 at a concrete input. -/
theorem C5_truncation_marker_witness :
    truncateToMax 2 ['x', 'y', 'z'] = ['x', 'y'] ++ TRUNC_MARKER ∧
    (truncateToMax 2 ['x', 'y', 'z']).length = (2 : Int).toNat + TRUNC_MARKER.length :=
  C5_truncation_marker.1 2 ['x', 'y', 'z'] (by norm_num) (by norm_num)

/-- The text length of each window of the §8 scenario result. -/
def c5windowTextLens : List Nat :=
  match c5scenario with
  | .ok ws _ _ _ => ws.map fun w => w.text.length
  | _ => []

/-- C6 counterexample: in the very scenario the spec uses for truncation
(§8 scenario 2, `maxChars = 1500`), the returned window's text has length
`1512 > 1500`, falsifying the claimed invariant `|w.text| ≤ maxCharsPerRef`. -/
theorem C6_counterexample :
    c5windowTextLens = [1512] ∧ ¬ (1512 ≤ 1500) := by
  constructor
  · unfold c5windowTextLens
    rw [c5scenario_eval]
    have hm : TRUNC_MARKER.length = 12 := rfl
    simp only [List.map_cons, List.map_nil, List.length_append, List.length_take,
      notesText_length, hm]
    norm_num
  · norm_num

/-- C6 (amended): every expanded window's text is bounded by
`maxChars + len(marker)`; when the read text exceeds `maxChars` the window
is exactly the first `maxChars` characters with a single appended marker
occurrence, and otherwise the text is returned unchanged (so the marker is
appended at most once per window). -/
theorem C6_window_cap (mc : Int) (t : Text) (h : 0 ≤ mc) :
    (truncateToMax mc t).length ≤ mc.toNat + TRUNC_MARKER.length ∧
    (mc < (t.length : Int) → truncateToMax mc t = t.take mc.toNat ++ TRUNC_MARKER) ∧
    ((t.length : Int) ≤ mc → truncateToMax mc t = t) := by
  refine ⟨?_, ?_, ?_⟩
  · unfold truncateToMax
    by_cases hlt : (t.length : Int) > mc
    · rw [if_pos hlt, List.length_append]
      have := jsSlice_zero_length_le t mc h
      omega
    · rw [if_neg hlt]
      have : t.length ≤ mc.toNat := by omega
      have hm : 0 < TRUNC_MARKER.length := by norm_num [TRUNC_MARKER]
      omega
  · intro hlt
    unfold truncateToMax
    rw [if_pos (by omega), jsSlice_zero_nonneg t mc h]
  · intro hle
    unfold truncateToMax
    rw [if_neg (by omega)]

/-- Witness for the amended C6 theorem at a concrete input. -/
theorem C6_window_cap_witness :
    (truncateToMax 2 ['x', 'y', 'z']).length ≤ (2 : Int).toNat + TRUNC_MARKER.length ∧
    ((2 : Int) < (([ 'x', 'y', 'z' ] : Text).length : Int) →
      truncateToMax 2 ['x', 'y', 'z'] = (['x', 'y', 'z'] : Text).take (2 : Int).toNat ++ TRUNC_MARKER) ∧
    ((([ 'x', 'y', 'z' ] : Text).length : Int) ≤ 2 → truncateToMax 2 ['x', 'y', 'z'] = ['x', 'y', 'z']) :=
  C6_window_cap 2 ['x', 'y', 'z'] (by norm_num)

/-- C8: `memory_expand` keeps exactly the first `min(maxRefs, |refs|)`
input refs in input order (`refs.slice(0, maxRefs)` = `take` for
non-negative `maxRefs`), and with `maxRefs = 0` it returns empty results
for every possible workspace — no file is read. -/
theorem C8_maxRefs (refs : List ExpandRefIn) (dl mr mc : Int)
    (hmr : 0 ≤ mr) (hne : refs ≠ []) :
    jsSlice refs 0 mr = refs.take mr.toNat ∧
    (∀ fs : FileStore, memoryExpand fs refs dl 0 mc = .ok [] 0 dl mc) := by
  refine ⟨jsSlice_zero_nonneg refs mr hmr, ?_⟩
  intro fs
  unfold memoryExpand
  rw [if_neg (by simpa [List.isEmpty_iff] using hne)]
  rw [show jsSlice refs 0 (0 : Int) = refs.take 0 from jsSlice_zero_nonneg refs 0 le_rfl]
  simp [expandBatch]

/-- Witness for C8 at a concrete input. -/
theorem C8_maxRefs_witness :
    jsSlice [refA, refMissing] 0 (1 : Int) = [refA, refMissing].take (1 : Int).toNat ∧
    (∀ fs : FileStore, memoryExpand fs [refA, refMissing] 3 0 100 = .ok [] 0 3 100) :=
  C8_maxRefs [refA, refMissing] 3 1 100 (by norm_num) (by simp)

/-! ## C9 — session path validation -/

/-- The claim's path predicate, following its words: the path matches
`sessions/<file>.jsonl` where `<file>` ends in `.jsonl` and contains no
`/`, `\` and no `..`. -/
def claimedSessionPath (p : Text) : Prop :=
  ∃ file : Text, p = "sessions/".toList ++ file ∧
    ".jsonl".toList.isSuffixOf file = true ∧
    file.contains '/' = false ∧ file.contains '\\' = false ∧
    hasInfix "..".toList file = false

/-- C9 counterexample: `resolveSessionFileAbs` first strips every leading
`.` and `/` character, so the path `./sessions/a.jsonl` — which does not
match `sessions/<file>.jsonl` — is accepted and read, refuting the
"only if" direction of the claim. -/
theorem C9_counterexample :
    resolveSessionFile "./sessions/a.jsonl".toList = .ok "a.jsonl".toList ∧
    ¬ claimedSessionPath "./sessions/a.jsonl".toList := by
  refine ⟨rfl, ?_⟩
  rintro ⟨file, heq, -⟩
  have h : '.' = 's' := congrArg List.headI heq
  exact absurd h (by decide)

/-- C9 (amended): a session file is read only if, after stripping the
leading run of `.` and `/` characters, the path is exactly
`sessions/<file>` with `<file>` nonempty, ending in `.jsonl` and free of
`/`, `\` and `..` — so the file joined under the sessions directory can
never escape it; on a resolution error `rlm_get` returns an error result
and `rlm_expand` produces no window for that ref. -/
theorem C9_session_path_safety (p f : Text) :
    (resolveSessionFile p = .ok f →
       p.dropWhile (fun c => c = '.' || c = '/') = "sessions/".toList ++ f ∧
       f ≠ [] ∧ f.contains '/' = false ∧ f.contains '\\' = false ∧
       hasInfix "..".toList f = false ∧ ".jsonl".toList.isSuffixOf f = true) ∧
    (∀ (e : Text) (store : FileStore) (fromL lines : Int),
       resolveSessionFile p = .error e → rlmGet store p fromL lines = .error e) ∧
    (∀ (e : Text) (store : FileStore) (dl : Int) (r : RlmExpandRefIn),
       r.path = p → resolveSessionFile p = .error e → rlmReadRef store dl r = none) := by
  refine ⟨?_, ?_, ?_⟩
  · intro hok
    unfold resolveSessionFile at hok
    set rel := p.dropWhile (fun c => c = '.' || c = '/') with hrel
    by_cases h1 : (!("sessions/".toList.isPrefixOf rel)
        || (rel.drop "sessions/".toList.length).isEmpty
        || (rel.drop "sessions/".toList.length).any (fun c => c = '\n' || c = '\r')) = true
    · rw [if_pos h1] at hok
      cases hok
    · rw [if_neg h1] at hok
      simp only [Bool.or_eq_true, Bool.not_eq_true', not_or, Bool.not_eq_false,
        Bool.not_eq_true] at h1
      obtain ⟨⟨hpre, hne⟩, hany⟩ := h1
      by_cases h2 : (!(".jsonl".toList.isSuffixOf (rel.drop "sessions/".toList.length))) = true
      · rw [if_pos h2] at hok
        cases hok
      · rw [if_neg h2] at hok
        by_cases h3 : (hasInfix "..".toList (rel.drop "sessions/".toList.length)
            || (rel.drop "sessions/".toList.length).contains '/'
            || (rel.drop "sessions/".toList.length).contains '\\') = true
        · rw [if_pos h3] at hok
          cases hok
        · rw [if_neg h3] at hok
          injection hok with hf
          subst hf
          simp only [Bool.or_eq_true, not_or, Bool.not_eq_true] at h3
          obtain ⟨⟨hdots, hslash⟩, hback⟩ := h3
          have hprefix : "sessions/".toList <+: rel := by
            rw [← List.isPrefixOf_iff_prefix]
            exact hpre
          obtain ⟨t, ht⟩ := hprefix
          have hdropt : rel.drop "sessions/".toList.length = t := by
            rw [← ht]
            exact List.drop_left _ _
          refine ⟨?_, ?_, ?_, ?_, ?_, ?_⟩
          · rw [hdropt, ← ht]
          · intro hemp
            rw [hemp] at hne
            exact absurd hne (by simp)
          · exact hslash
          · exact hback
          · exact hdots
          · simpa [Bool.not_eq_true'] using h2
  · intro e store fromL lines herr
    unfold rlmGet
    rw [herr]
  · intro e store dl r hp herr
    unfold rlmReadRef
    rw [hp, herr]

/-- Witness for the amended C9 theorem at a concrete accepted path. -/
theorem C9_session_path_safety_witness :
    "sessions/a.jsonl".toList.dropWhile (fun c => c = '.' || c = '/') =
        "sessions/".toList ++ "a.jsonl".toList ∧
    "a.jsonl".toList ≠ [] ∧ "a.jsonl".toList.contains '/' = false ∧
    "a.jsonl".toList.contains '\\' = false ∧
    hasInfix "..".toList "a.jsonl".toList = false ∧
    ".jsonl".toList.isSuffixOf "a.jsonl".toList = true :=
  (C9_session_path_safety "sessions/a.jsonl".toList "a.jsonl".toList).1 rfl

/-! ## C10 — the `rlm_expand` global character budget -/

theorem rlmExpandLoop_sum_le (store : FileStore) (dl : Int) :
    ∀ (refs : List RlmExpandRefIn) (remaining : Int), 0 ≤ remaining →
      (((rlmExpandLoop store dl remaining refs).map
          fun w => (w.text.length : Int)).sum ≤ remaining) := by
  intro refs
  induction refs with
  | nil =>
    intro rem h
    simpa [rlmExpandLoop] using h
  | cons ref rest ih =>
    intro rem h
    by_cases hp : ref.path.isEmpty
    · simpa [rlmExpandLoop, hp] using ih rem h
    · cases hread : rlmReadRef store dl ref with
      | none => simpa [rlmExpandLoop, hp, hread] using ih rem h
      | some v =>
        obtain ⟨fromL, lines, text⟩ := v
        simp only [rlmExpandLoop, hp, Bool.false_eq_true, if_false, hread]
        have hclip : ((jsSlice text 0 (max 0 rem)).length : Int) ≤ rem := by
          rw [max_eq_right h]
          have h1 := jsSlice_zero_length_le text rem h
          omega
        by_cases hz : rem - ((jsSlice text 0 (max 0 rem)).length : Int) ≤ 0
        · rw [if_pos hz]
          simpa using hclip
        · rw [if_neg hz]
          have ih' := ih (rem - ((jsSlice text 0 (max 0 rem)).length : Int)) (by omega)
          simp only [List.map_cons, List.sum_cons]
          omega

theorem rlmExpandLoop_paths_sublist (store : FileStore) (dl : Int) :
    ∀ (refs : List RlmExpandRefIn) (remaining : Int),
      ((rlmExpandLoop store dl remaining refs).map Window.path).Sublist
        (refs.map RlmExpandRefIn.path) := by
  intro refs
  induction refs with
  | nil =>
    intro rem
    simp [rlmExpandLoop]
  | cons ref rest ih =>
    intro rem
    by_cases hp : ref.path.isEmpty
    · simp only [rlmExpandLoop, hp, if_true, List.map_cons]
      exact (ih rem).cons _
    · cases hread : rlmReadRef store dl ref with
      | none =>
        simp only [rlmExpandLoop, hp, Bool.false_eq_true, if_false, hread, List.map_cons]
        exact (ih rem).cons _
      | some v =>
        obtain ⟨fromL, lines, text⟩ := v
        simp only [rlmExpandLoop, hp, Bool.false_eq_true, if_false, hread]
        by_cases hz : rem - ((jsSlice text 0 (max 0 rem)).length : Int) ≤ 0
        · rw [if_pos hz]
          simp only [List.map_cons, List.map_nil]
          exact (List.nil_sublist _).cons₂ _
        · rw [if_neg hz]
          simp only [List.map_cons]
          exact (ih _).cons₂ _

/-- C10: over any session store and any `rlm_expand` call with a
non-negative `maxChars` budget, the total text length of the returned
windows never exceeds `maxChars`, and the windows arise from the limited
refs in input order (failed or budget-starved refs only drop entries, never
reorder them). -/
theorem C10_global_budget (store : FileStore) (refs : List RlmExpandRefIn)
    (dl mr mc : Int) (h : 0 ≤ mc) :
    (((rlmExpand store refs dl mr mc).map fun w => (w.text.length : Int)).sum ≤ mc) ∧
    ((rlmExpand store refs dl mr mc).map Window.path).Sublist
      ((jsSlice refs 0 (clampInt mr 1 20)).map RlmExpandRefIn.path) :=
  ⟨rlmExpandLoop_sum_le store dl _ mc h, rlmExpandLoop_paths_sublist store dl _ mc⟩

/-- A session store with one 50-line session file of 100-character lines. -/
def sessStore : FileStore := fun p =>
  if p = "s1.jsonl".toList then some (List.replicate 50 (List.replicate 100 'z'))
  else none

def rlmRefS1 : RlmExpandRefIn := { path := "sessions/s1.jsonl".toList, startLine := some 10 }

/-- Witness for C10 at a concrete two-ref call with budget 300. -/
theorem C10_global_budget_witness :
    (((rlmExpand sessStore [rlmRefS1, rlmRefS1] 5 5 300).map
        fun w => (w.text.length : Int)).sum ≤ 300) ∧
    ((rlmExpand sessStore [rlmRefS1, rlmRefS1] 5 5 300).map Window.path).Sublist
      ((jsSlice [rlmRefS1, rlmRefS1] 0 (clampInt 5 1 20)).map RlmExpandRefIn.path) :=
  C10_global_budget sessStore [rlmRefS1, rlmRefS1] 5 5 300 (by norm_num)

/-! ## C7 — index-refresh debounce and cooldown -/

def sfMain : Text := "agents/main/sessions/s1.jsonl".toList

/-- C7 counterexample: on a fresh state, an event at `t = 10^12` schedules
the refresh at `t + 60000` — the bundled hook's debounce is 60 s (and its
cooldown `COOLDOWN_MS` is 5 minutes), not the claimed `D = 5 s` /
`C = 30 s`. -/
theorem C7_counterexample :
    lookupA "main".toList ((hookStep ⟨[], []⟩ sfMain 1000000000000).pending) =
      some (1000000000000 + 60000) ∧
    (1000000000000 + 60000 : Nat) ≠ 1000000000000 + 5000 ∧
    DEBOUNCE_MS ≠ 5000 ∧ COOLDOWN_MS ≠ 30000 := by
  refine ⟨rfl, by norm_num, by norm_num [DEBOUNCE_MS], by norm_num [COOLDOWN_MS]⟩

theorem lookupA_insertA_self (aid : AgentId) (v : Nat) :
    ∀ m : List (AgentId × Nat), lookupA aid (insertA aid v m) = some v := by
  intro m
  induction m with
  | nil => simp [insertA, lookupA]
  | cons kv rest ih =>
    obtain ⟨k, v'⟩ := kv
    by_cases hk : k = aid
    · simp [insertA, lookupA, hk]
    · simp [insertA, lookupA, hk, ih]

theorem lookupA_insertA_other (aid aid' : AgentId) (v : Nat) (hne : aid' ≠ aid) :
    ∀ m : List (AgentId × Nat), lookupA aid (insertA aid' v m) = lookupA aid m := by
  intro m
  induction m with
  | nil => simp [insertA, lookupA, hne]
  | cons kv rest ih =>
    obtain ⟨k, v'⟩ := kv
    by_cases hk : k = aid'
    · subst hk
      simp [insertA, lookupA, hne, ih]
    · by_cases hk2 : k = aid
      · simp [insertA, lookupA, hk, hk2, Ne.symm hne]
      · simp [insertA, lookupA, hk, hk2, ih]

/-- C7 (amended): the bundled `rlm-index-refresh` hook debounces per
**agentId** (extracted from the session file path, default `main`) with
`D = DEBOUNCE_MS = 60 s` and a cooldown `C = COOLDOWN_MS = 5 min` since
the last successful refresh: an event within the cooldown is ignored
entirely — it neither schedules nor extends any timer — while an event
outside it (re)schedules that agent's single pending refresh at
`now + DEBOUNCE_MS`, leaving other agents' timers untouched. -/
theorem C7_debounce_cooldown (st : HookState) (sf : Text) (now : Nat) :
    (now - ((lookupA ((extractAgentId sf).getD "main".toList) st.lastRun).getD 0)
        < COOLDOWN_MS → hookStep st sf now = st) ∧
    (¬ (now - ((lookupA ((extractAgentId sf).getD "main".toList) st.lastRun).getD 0)
        < COOLDOWN_MS) →
      (hookStep st sf now).pending =
        insertA ((extractAgentId sf).getD "main".toList) (now + DEBOUNCE_MS) st.pending ∧
      (hookStep st sf now).lastRun = st.lastRun) ∧
    (∀ (aid : AgentId) (v : Nat) (m : List (AgentId × Nat)),
       lookupA aid (insertA aid v m) = some v) ∧
    (∀ (aid aid' : AgentId) (v : Nat) (m : List (AgentId × Nat)), aid' ≠ aid →
       lookupA aid (insertA aid' v m) = lookupA aid m) := by
  refine ⟨?_, ?_, fun aid v m => lookupA_insertA_self aid v m,
    fun aid aid' v m hne => lookupA_insertA_other aid aid' v hne m⟩
  · intro hcool
    unfold hookStep
    rw [if_pos hcool]
  · intro hcool
    unfold hookStep
    rw [if_neg hcool]
    exact ⟨rfl, rfl⟩

/-- Witness for the amended C7 theorem: a fresh-state event at `t = 10^12`
schedules `main`'s refresh at `t + DEBOUNCE_MS`. -/
theorem C7_debounce_cooldown_witness :
    (hookStep ⟨[], []⟩ sfMain 1000000000000).pending =
      insertA ((extractAgentId sfMain).getD "main".toList)
        (1000000000000 + DEBOUNCE_MS) [] ∧
    (hookStep ⟨[], []⟩ sfMain 1000000000000).lastRun = [] :=
  (C7_debounce_cooldown ⟨[], []⟩ sfMain 1000000000000).2.1 (by decide)

end OpenClaw

namespace OpenClaw.Recursive

theorem mergeHop_cons_nil (hop : Nat) (r : RRef) (rest : List RRef) :
    (mergeHop hop (r :: rest) []).2 =
      1 + (mergeHop hop rest [{ r with hop := some hop }]).2 := rfl

/-- Merging a nonempty hop into an empty accumulator adds at least the
first ref. -/
theorem mergeHop_nil_pos (hop : Nat) (r : RRef) (rest : List RRef) :
    0 < (mergeHop hop (r :: rest) []).2 := by
  rw [mergeHop_cons_nil]
  omega

/-- C1: with `recursive = {maxHops: 3, earlyStop: true}`, when the hop-0
search already returns refs (so `newRefs > 0`) and the hop-0 expansion
derives no new terms, the recursive metadata records exactly one hop —
`{hop: 0, query, derivedQuery: none, newRefs > 0}`. -/
theorem C1_recursive_early_stop
    (search : Text → List RRef) (expandText : RRef → Text)
    (derive : Text → List Text) (query : Text) (cfg : RecursiveCfg)
    (hHops : cfg.maxHops = 3) (hStop : cfg.earlyStop = true)
    (hFound : (search query).take cfg.maxRefsPerHop ≠ [])
    (hDerive : derive (hop0ExpandedText search expandText cfg query) = []) :
    (recursiveSearchRefs search expandText derive cfg query).recursive.hops.length = 1 ∧
    ∀ info ∈ (recursiveSearchRefs search expandText derive cfg query).recursive.hops,
      info.hop = 0 ∧ info.query = query ∧ info.derivedQuery = none ∧
        0 < info.newRefs := by
  have hh : hop0ExpandedText search expandText cfg query =
      (expandHop expandText cfg.maxTotalExpandedChars 0
        (topKByScore cfg.expandTopK ((search query).take cfg.maxRefsPerHop))).1 := rfl
  have hone : recLoop search expandText derive cfg query 0 3 query [] 0 [] =
      ((mergeHop 0 ((search query).take cfg.maxRefsPerHop) []).1,
       (expandHop expandText cfg.maxTotalExpandedChars 0
         (topKByScore cfg.expandTopK ((search query).take cfg.maxRefsPerHop))).2,
       [⟨0, query, none, (mergeHop 0 ((search query).take cfg.maxRefsPerHop) []).2⟩]) := by
    simp only [recLoop]
    rw [← hh, hDerive]
    simp only [List.take_nil, List.isEmpty_nil, if_true, List.nil_append]
    split
    · rfl
    · rfl
  have hout : (recursiveSearchRefs search expandText derive cfg query).recursive.hops =
      [⟨0, query, none, (mergeHop 0 ((search query).take cfg.maxRefsPerHop) []).2⟩] := by
    unfold recursiveSearchRefs
    rw [hHops, hone]
  refine ⟨by rw [hout]; rfl, ?_⟩
  intro info hinfo
  rw [hout] at hinfo
  simp only [List.mem_singleton] at hinfo
  subst hinfo
  refine ⟨rfl, rfl, rfl, ?_⟩
  obtain ⟨f0, fs0, hf⟩ := List.exists_cons_of_ne_nil hFound
  rw [hf]
  exact mergeHop_nil_pos 0 f0 fs0

/-- A single concrete ref for the C1 witness. -/
def oneRef : RRef :=
  { path := "m.md".toList, startLine := 1, endLine := 2, score := 1, preview := ['p'] }

def cfgW : RecursiveCfg := ⟨3, 8, 2, 20, 8000, 12000, 12, true⟩

/-- Witness for C1 at a concrete searcher, expander and deriver. -/
theorem C1_recursive_early_stop_witness :
    (recursiveSearchRefs (fun _ => [oneRef]) (fun _ => ['x']) (fun _ => [])
        cfgW "q".toList).recursive.hops.length = 1 ∧
    0 < ((recursiveSearchRefs (fun _ => [oneRef]) (fun _ => ['x']) (fun _ => [])
        cfgW "q".toList).recursive.hops.headI).newRefs := by
  have h := C1_recursive_early_stop (fun _ => [oneRef]) (fun _ => ['x']) (fun _ => [])
    "q".toList cfgW rfl rfl (by decide) rfl
  refine ⟨h.1, ?_⟩
  obtain ⟨a, ha⟩ := List.length_eq_one.mp h.1
  have hmem := h.2 a (by rw [ha]; exact List.mem_singleton_self a)
  rw [ha]
  simpa using hmem.2.2.2

end OpenClaw.Recursive
